import Mathlib

/-!
Verification development for the `omo-config-manager` plugin
(`src/plugins/omo-config-manager/src/core.ts` and `utils.ts`).

The TypeScript core is shallowly embedded: pure string processing becomes
Lean functions on `String`, the two JSON config documents become Lean
structures with `Option` fields (a `none` field corresponds to a JSON key
that is absent after serialization, since `JSON.stringify` drops
`undefined` values), the filesystem archive becomes a list of filenames,
and the effect of `executeAction` is modelled as a pure function from a
configuration state to a result carrying the report message, the new
persisted state and the ordered list of filesystem events (backup
attempts and config-file writes) the handler performs.

Notes on fidelity:
  * JS `request.toLowerCase()` / `String.prototype.startsWith` agree with
    Lean's `String.toLower` / `String.startsWith` on the ASCII keyword
    vocabulary the classifier uses.
  * JS `split(/\s+/)` is modelled by `String.split (·.isWhitespace)`;
    the two differ only in that the Lean version can yield extra empty
    tokens, which can never satisfy `hasWord` for the non-empty keyword
    patterns the classifier tests, so the classifier is unaffected.
  * JS numbers appearing in config fields (`temperature`, `top_p`, ...)
    are modelled as `Rat`; the only operations the core performs on them
    are order comparisons against the exactly-representable constants
    0 and 1, for which `Rat` is a faithful model.
  * Report-message bodies of read-only listing actions, and the
    JSON/date footers of mutating success reports, are elided (only the
    stable leading text is modelled); every error and informational
    message that a verified property talks about is modelled verbatim.
-/

namespace OmoConfigManager

/-! ## String helpers

Structural (kernel-reducible) models of the JS string primitives the core
uses: `toLowerCase` (ASCII, the only case the keyword vocabulary needs),
`split(/\s+/)` and `startsWith`. -/

/-- ASCII lowercasing of one character, as `toLowerCase` acts on the
classifier's ASCII vocabulary. -/
def asciiLowerChar (c : Char) : Char :=
  if 'A' ≤ c ∧ c ≤ 'Z' then Char.ofNat (c.toNat + 32) else c

/-- `request.toLowerCase()`. -/
def lowerString (s : String) : String := String.mk (s.data.map asciiLowerChar)

/-- Helper of `wordsOf`: accumulates the current (reversed) token. -/
def splitWsAux : List Char → List Char → List String
  | [], cur => if cur.isEmpty then [] else [String.mk cur.reverse]
  | c :: cs, cur =>
    if c.isWhitespace then
      if cur.isEmpty then splitWsAux cs []
      else String.mk cur.reverse :: splitWsAux cs []
    else splitWsAux cs (c :: cur)

/-- `request.split(/\s+/)`: the maximal whitespace-free runs.  (JS `split`
may additionally yield an empty first or last token; empty tokens can
never satisfy `hasWord` for a non-empty pattern, so they are dropped.) -/
def wordsOf (s : String) : List String := splitWsAux s.data []

/-- JS `w.startsWith(pre)`. -/
def startsWithStr (w pre : String) : Bool := pre.data.isPrefixOf w.data

/-! ## Action types and the intent classifier (`parseAction`) -/

/-- `ActionType` from core.ts. -/
inductive ActionType where
  | listAgents
  | listCategories
  | listSkills
  | checkUpdates
  | runDiagnostics
  | backupConfigs
  | showPermissions
  | compareBackup
  | restoreBackup
  | addAgent
  | modifyAgent
  | addCategory
  | modifyCategory
  | disableHook
  | enableHook
  | listOcModels
  | unknown
deriving DecidableEq, Repr

/-- `hasWord` from `parseAction`: some token equals the word or starts with it. -/
def hasWord (words : List String) (word : String) : Bool :=
  words.any (fun w => w == word || startsWithStr w word)

/-- `parseAction` from core.ts: priority-ordered keyword rules, first match wins. -/
def parseAction (request : String) : ActionType :=
  let lowerRequest := lowerString request
  let words := wordsOf lowerRequest
  let hw := hasWord words
  if (hw "list" || hw "show" || hw "what") && hw "agent" then .listAgents
  else if (hw "list" || hw "show" || hw "what") && hw "categor" then .listCategories
  else if (hw "list" || hw "show" || hw "what") && hw "skill" then .listSkills
  else if (hw "list" || hw "show") && (hw "model" || hw "oc-model") then .listOcModels
  else if hw "update" || (hw "check" && hw "update") then .checkUpdates
  else if hw "diagnostic" || (hw "run" && hw "diagnostic") then .runDiagnostics
  else if hw "valid" || (hw "check" && !hw "update") then .runDiagnostics
  else if hw "backup" then .backupConfigs
  else if hw "restore" then .restoreBackup
  else if hw "compare" || hw "diff" then .compareBackup
  else if hw "permission" || hw "perm" then .showPermissions
  else if hw "add" && hw "agent" then .addAgent
  else if (hw "modify" || hw "change" || hw "edit" || hw "update") && hw "agent" then .modifyAgent
  else if hw "add" && hw "categor" then .addCategory
  else if (hw "modify" || hw "change" || hw "edit" || hw "update") && hw "categor" then .modifyCategory
  else if hw "disable" && hw "hook" then .disableHook
  else if hw "enable" && hw "hook" then .enableHook
  else .unknown

/-! ## Safe config keys (`isSafeConfigKey`) -/

/-- `FORBIDDEN_KEYS` from core.ts. -/
def FORBIDDEN_KEYS : List String := ["__proto__", "prototype", "constructor"]

/-- One character of the class `[a-z0-9]` under the `/i` flag. -/
def isKeyHeadChar (c : Char) : Bool := c.isAlpha || c.isDigit

/-- One character of the class `[a-z0-9_-]` under the `/i` flag. -/
def isKeyTailChar (c : Char) : Bool := c.isAlpha || c.isDigit || c == '_' || c == '-'

/-- The regex test `/^[a-z0-9][a-z0-9_-]\x7b0,63\x7d$/i.test(key)`. -/
def matchesSafeKeyPattern (key : String) : Bool :=
  match key.data with
  | [] => false
  | c :: cs => isKeyHeadChar c && cs.length ≤ 63 && cs.all isKeyTailChar

/-- `isSafeConfigKey` from core.ts. -/
def isSafeConfigKey (key : String) : Bool :=
  if key.data.isEmpty then false
  else if FORBIDDEN_KEYS.contains (lowerString key) then false
  else matchesSafeKeyPattern key

/-! ## Timestamps (`createTimestamp` from utils.ts) -/

/-- The six fields the core reads off a JS `Date` at one instant:
`year`/`month`/`day` come from `toISOString()` and are the **UTC**
calendar date, while `hour`/`minute`/`second` come from
`toTimeString()` and are the **local wall-clock** time.  The two groups
are coherent (describe the same clock) only when the process timezone
is UTC; `TZInstant`/`observedDateTime` below model how they arise from
one instant under a fixed timezone offset. -/
structure DateTime where
  year : Nat
  month : Nat
  day : Nat
  hour : Nat
  minute : Nat
  second : Nat
deriving DecidableEq, Repr

/-- The two-digit zero-padded decimal rendering (`05`, `37`) a JS `Date`
produces for month/day/hour/minute/second fields, written via its decimal
digits (faithful for the in-range values `n < 100` a `Date` yields). -/
def pad2 (n : Nat) : String :=
  ⟨[Nat.digitChar (n / 10 % 10), Nat.digitChar (n % 10)]⟩

/-- The four-digit zero-padded decimal rendering `toISOString` produces
for the year (faithful for `n < 10000`). -/
def pad4 (n : Nat) : String :=
  ⟨[Nat.digitChar (n / 1000 % 10), Nat.digitChar (n / 100 % 10),
    Nat.digitChar (n / 10 % 10), Nat.digitChar (n % 10)]⟩

/-- `createTimestamp` from utils.ts: the date part of `toISOString` with the
dashes removed (`YYYYMMDD`), a dash, then the clock part of `toTimeString`
with the colons removed (`HHMMSS`).  Note the mix the source makes: the
date block is the UTC date of the instant, the time block the local
wall-clock time (see `DateTime`). -/
def createTimestamp (d : DateTime) : String :=
  pad4 d.year ++ pad2 d.month ++ pad2 d.day ++ "-" ++
    pad2 d.hour ++ pad2 d.minute ++ pad2 d.second

/-- Field ranges under which a JS `Date` renders each block of
`createTimestamp` at its fixed width. -/
def ValidDT (d : DateTime) : Prop :=
  d.year < 10000 ∧ d.month < 100 ∧ d.day < 100 ∧
    d.hour < 100 ∧ d.minute < 100 ∧ d.second < 100

instance (d : DateTime) : Decidable (ValidDT d) := by
  unfold ValidDT; infer_instance

/-- Chronological (lexicographic field-wise) strict order on date-times. -/
def dtLt (a b : DateTime) : Prop :=
  a.year < b.year ∨ (a.year = b.year ∧
    (a.month < b.month ∨ (a.month = b.month ∧
      (a.day < b.day ∨ (a.day = b.day ∧
        (a.hour < b.hour ∨ (a.hour = b.hour ∧
          (a.minute < b.minute ∨ (a.minute = b.minute ∧
            a.second < b.second)))))))))

instance (a b : DateTime) : Decidable (dtLt a b) := by
  unfold dtLt; infer_instance

/-- One instant of real time, as the `Date` machinery sees it: its UTC
calendar date (`year`/`month`/`day`) and the elapsed seconds of that
UTC day (`sodUTC`, `< 86400`). -/
structure TZInstant where
  year : Nat
  month : Nat
  day : Nat
  sodUTC : Nat
deriving DecidableEq, Repr

/-- Field bounds of a real instant. -/
def ValidInstant (i : TZInstant) : Prop :=
  i.year < 10000 ∧ i.month < 100 ∧ i.day < 100 ∧ i.sodUTC < 86400

instance (i : TZInstant) : Decidable (ValidInstant i) := by
  unfold ValidInstant; infer_instance

/-- Chronological strict order on instants (UTC date, then second of day). -/
def instantLt (a b : TZInstant) : Prop :=
  a.year < b.year ∨ (a.year = b.year ∧
    (a.month < b.month ∨ (a.month = b.month ∧
      (a.day < b.day ∨ (a.day = b.day ∧ a.sodUTC < b.sodUTC)))))

instance (a b : TZInstant) : Decidable (instantLt a b) := by
  unfold instantLt; infer_instance

/-- What one `Date` at instant `i` yields under a fixed timezone offset
(minutes east of UTC): `toISOString` contributes the UTC date unchanged,
`toTimeString` the local wall-clock time — the UTC second of day shifted
by the offset, wrapping around local midnight. -/
def observedDateTime (i : TZInstant) (offsetMinutes : Int) : DateTime :=
  ⟨i.year, i.month, i.day,
    (((i.sodUTC : Int) + offsetMinutes * 60) % 86400).toNat / 3600,
    (((i.sodUTC : Int) + offsetMinutes * 60) % 86400).toNat / 60 % 60,
    (((i.sodUTC : Int) + offsetMinutes * 60) % 86400).toNat % 60⟩

/-- The timestamp `createTimestamp` actually produces at instant `i` in a
timezone with the given fixed offset. -/
def programTimestamp (i : TZInstant) (offsetMinutes : Int) : String :=
  createTimestamp (observedDateTime i offsetMinutes)

/-! ## Data model (types.ts)

JSON objects are modelled as insertion-ordered association lists (JS
object property order), JSON arrays as lists, optional fields as
`Option`.  `Record<string, unknown>` passthrough fields are modelled as
opaque string-to-string association lists: the core never inspects their
values, only carries them along. -/

/-- `OmoAgent` from types.ts. -/
structure OmoAgent where
  model : Option String := none
  temperature : Option Rat := none
  disable : Option Bool := none
  prompt_append : Option String := none
  permission : Option (List (String × String)) := none
  description : Option String := none
  tools : Option (List (String × String)) := none
  top_p : Option Rat := none
  maxTokens : Option Rat := none
deriving DecidableEq, Repr

/-- `OmoCategory` from types.ts. -/
structure OmoCategory where
  model : Option String := none
  temperature : Option Rat := none
  top_p : Option Rat := none
  maxTokens : Option Rat := none
  prompt_append : Option String := none
deriving DecidableEq, Repr

/-- `OmoConfig` from types.ts (the agent-side RootConfig). -/
structure OmoConfig where
  agents : Option (List (String × OmoAgent)) := none
  categories : Option (List (String × OmoCategory)) := none
  disabled_hooks : Option (List String) := none
  sisyphus_agent : Option String := none
  background_task_concurrency : Option Rat := none
  mcp : Option (List (String × String)) := none
  lsp : Option (List (String × String)) := none
  skills : Option (List (String × String)) := none
deriving DecidableEq, Repr

/-- `OpenCodeModel` from types.ts (`options` kept opaque). -/
structure OpenCodeModel where
  name : Option String := none
  tools : Option Bool := none
  reasoning : Option Bool := none
  options : Option (List (String × String)) := none
deriving DecidableEq, Repr

/-- `OpenCodeProvider` from types.ts. -/
structure OpenCodeProvider where
  models : Option (List (String × OpenCodeModel)) := none
deriving DecidableEq, Repr

/-- `OpenCodeConfig` from types.ts (the provider-side RootConfig). -/
structure OpenCodeConfig where
  provider : Option (List (String × OpenCodeProvider)) := none
  permission : Option (List (String × String)) := none
  plugin : Option (List String) := none
  agent : Option (List (String × String)) := none
  instruction : Option (List String) := none
deriving DecidableEq, Repr

/-- `ActionOptions` from core.ts; here it stands for the already merged
`effectiveOptions` (the request-string extraction of
`inferOptionsFromRequest` and the field-wise `mergeOptions` happen before
the dispatch and only determine which options arrive here). -/
structure ActionOptions where
  backupIndex : Option Int := none
  agentName : Option String := none
  categoryName : Option String := none
  hookName : Option String := none
  agentData : OmoAgent := {}
  categoryData : OmoCategory := {}
deriving DecidableEq, Repr

/-- JS object read `obj[k]`. -/
def alistGet {α : Type} (l : List (String × α)) (k : String) : Option α :=
  match l with
  | [] => none
  | (k', v) :: rest => if k' == k then some v else alistGet rest k

/-- JS object write `obj[k] = v`: replaces in place, else appends. -/
def alistSet {α : Type} (l : List (String × α)) (k : String) (v : α) :
    List (String × α) :=
  match l with
  | [] => [(k, v)]
  | (k', v') :: rest =>
    if k' == k then (k, v) :: rest else (k', v') :: alistSet rest k v

/-- JS truthiness test `!s` for an optional string (absent or empty). -/
def strFalsy : Option String → Bool
  | none => true
  | some s => s.data.isEmpty

/-- The computed key of `effectiveOptions?.agentName`-style guards:
`none` when the optional string is absent or empty (JS falsy). -/
def presentKey : Option String → Option String
  | none => none
  | some s => if s.data.isEmpty then none else some s

/-- The guard `temperature !== undefined && (temperature < 0 || temperature > 1)`. -/
def tempOutOfRange : Option Rat → Bool
  | none => false
  | some t => t < 0 || 1 < t

/-- `KNOWN_HOOKS` from core.ts (the fixed registry, 25 entries). -/
def KNOWN_HOOKS : List String :=
  [ "todo-continuation-enforcer"
  , "context-window-monitor"
  , "session-recovery"
  , "session-notification"
  , "comment-checker"
  , "grep-output-truncator"
  , "tool-output-truncator"
  , "directory-agents-injector"
  , "directory-readme-injector"
  , "empty-task-response-detector"
  , "think-mode"
  , "anthropic-context-window-limit-recovery"
  , "rules-injector"
  , "background-notification"
  , "auto-update-checker"
  , "startup-toast"
  , "keyword-detector"
  , "agent-usage-reminder"
  , "non-interactive-env"
  , "interactive-bash-session"
  , "compaction-context-injector"
  , "thinking-block-validator"
  , "claude-code-hooks"
  , "ralph-loop"
  , "preemptive-compaction" ]

/-! ## Backup manager (`backupConfigsInternal`, `listBackups`, `path.extname`) -/

/-- The characters of the basename of a POSIX path (after the last `/`). -/
def basenameChars (p : String) : List Char :=
  (p.data.reverse.takeWhile (fun c => c ≠ '/')).reverse

/-- `path.extname(p)`: the suffix of the basename from its last dot;
empty when the basename has no dot or only a leading dot. -/
def extname (p : String) : String :=
  let b := basenameChars p
  let afterDot := b.reverse.takeWhile (fun c => c ≠ '.')
  if afterDot.length = b.length then ""
  else if afterDot.length + 1 = b.length then ""
  else String.mk ('.' :: afterDot.reverse)

/-- `path.extname(p) || '.json'` (empty string is falsy). -/
def extnameOrJson (p : String) : String :=
  let e := extname p
  if e.data.isEmpty then ".json" else e

/-- Is the filename one of the two backup kinds (`listBackups` filter)? -/
def isBackupFileName (f : String) : Bool :=
  startsWithStr f "omo-backup-" || startsWithStr f "opencode-backup-"

/-- Lexicographic `≤` on character lists (code-unit comparison, exactly
the default JS `Array.prototype.sort` / `String.prototype <` comparison
for these ASCII names). -/
def lexLeChars : List Char → List Char → Bool
  | [], _ => true
  | _ :: _, [] => false
  | a :: as, b :: bs => if a < b then true else if b < a then false else lexLeChars as bs

/-- Lexicographic `<` on character lists. -/
def lexLtChars : List Char → List Char → Bool
  | _, [] => false
  | [], _ :: _ => true
  | a :: as, b :: bs => if a < b then true else if b < a then false else lexLtChars as bs

/-- JS string comparison `a <= b`. -/
def strLeB (a b : String) : Bool := lexLeChars a.data b.data

/-- JS string comparison `a < b`. -/
def strLtB (a b : String) : Bool := lexLtChars a.data b.data

/-- Insertion step of an ascending lexicographic sort. -/
def insertAsc (s : String) : List String → List String
  | [] => [s]
  | t :: ts => if strLeB s t then s :: t :: ts else t :: insertAsc s ts

/-- `Array.prototype.sort()` (default lexicographic comparison; agrees
with Lean's `String` order on these ASCII names). -/
def sortAsc : List String → List String
  | [] => []
  | s :: ss => insertAsc s (sortAsc ss)

/-- `listBackups(limit)` from utils.ts, applied to the set of filenames in
the archive directory: filter the two backup prefixes, sort, reverse,
truncate. -/
def listBackupsN (limit : Nat) (archive : List String) : List String :=
  ((sortAsc (archive.filter isBackupFileName)).reverse).take limit

/-- Creating a file in the archive directory: the filesystem keeps one
entry per name (a `copyFile`/`writeFile` onto an existing name overwrites it). -/
def addFile (archive : List String) (f : String) : List String :=
  if archive.contains f then archive else archive ++ [f]

/-- Result of `backupConfigsInternal` (the model always takes the
`ok: true` path: filesystem failures are out of scope of the claims,
which only speak about backup *attempts*). -/
structure BackupResult where
  archive : List String
  omoBackup : String
  ocBackup : String
deriving DecidableEq, Repr

/-- `backupConfigsInternal` from core.ts: copy both live configs into the
archive under timestamped names (`omo-backup-`/`opencode-backup-`), then
run the retention sweep: list up to 100 backup names sorted descending,
keep the first 5, unlink the rest. -/
def backupConfigsInternal (omoPath ocPath : String) (now : DateTime)
    (archive : List String) : BackupResult :=
  let timestamp := createTimestamp now
  let omoExt := extnameOrJson omoPath
  let ocExt := extnameOrJson ocPath
  let omoName := "omo-backup-" ++ timestamp ++ omoExt
  let ocName := "opencode-backup-" ++ timestamp ++ ocExt
  let archive1 := addFile (addFile archive omoName) ocName
  let allBackups := listBackupsN 100 archive1
  let archive2 :=
    if 5 < allBackups.length then
      archive1.filter (fun f => !((allBackups.drop 5).contains f))
    else archive1
  ⟨archive2, omoName, ocName⟩

/-! ## The action executor (`executeAction`)

`executeAction` is modelled as a pure state transformer.  The
environment carries what the surrounding I/O provides: the two resolved
config paths, the current instant, and the parsed contents of archive
files (for `restore-backup`).  The result records the report message,
the persisted configs and archive after the call, and the ordered trace
of filesystem events the handler performed on the config files and the
archive: `backupBoth` marks a call to `backupConfigsInternal` (an
attempt to back up *both* config files), `writeOmoConfig` /
`writeOcConfig` mark `writeJsonFile` on the respective live config. -/

/-- Environment of one `executeAction` invocation. -/
structure Env where
  omoPath : String
  ocPath : String
  now : DateTime
  readOmoBackup : String → OmoConfig
  readOcBackup : String → OpenCodeConfig

/-- The persisted state: both RootConfigs plus the archive contents. -/
structure ConfigState where
  omo : OmoConfig
  oc : OpenCodeConfig
  archive : List String
deriving DecidableEq, Repr

/-- Filesystem events of interest to the safety invariant. -/
inductive FsEvent where
  | backupBoth
  | writeOmoConfig
  | writeOcConfig
deriving DecidableEq, Repr

/-- Result of one `executeAction` invocation. -/
structure ExecResult where
  message : String
  omo : OmoConfig
  oc : OpenCodeConfig
  archive : List String
  events : List FsEvent
deriving DecidableEq, Repr

/-- A read-only handler outcome: report only, nothing touched. -/
def readOnlyResult (st : ConfigState) (message : String) : ExecResult :=
  ⟨message, st.omo, st.oc, st.archive, []⟩

/-- `toISOString().split('T')[0]` (the `currentDate` of the handlers). -/
def isoDateOf (d : DateTime) : String :=
  pad4 d.year ++ "-" ++ pad2 d.month ++ "-" ++ pad2 d.day

/-- `toTimeString().split(' ')[0]` (the `currentTime` of the handlers). -/
def isoTimeOf (d : DateTime) : String :=
  pad2 d.hour ++ ":" ++ pad2 d.minute ++ ":" ++ pad2 d.second

/-- The `Current date/time` footer of several report messages. -/
def dateFooter (env : Env) : String :=
  "\n\nCurrent date: " ++ isoDateOf env.now ++ "\nCurrent time: " ++ isoTimeOf env.now

/-- The agent entry built by the add-agent handler: only the six listed
fields are taken from the request data, everything else is absent. -/
def mkAddedAgent (d : OmoAgent) : OmoAgent :=
  { model := d.model
    temperature := d.temperature
    prompt_append := d.prompt_append
    permission := d.permission
    description := d.description
    disable := d.disable }

/-- The category entry built by the add-category handler. -/
def mkAddedCategory (d : OmoCategory) : OmoCategory :=
  { model := d.model
    temperature := d.temperature
    top_p := d.top_p
    maxTokens := d.maxTokens
    prompt_append := d.prompt_append }

/-- `if (x !== undefined) field = x` of the modify handlers. -/
def overrideField {α : Type} (newVal oldVal : Option α) : Option α :=
  match newVal with
  | some v => some v
  | none => oldVal

/-- Field-wise update of the modify-agent handler (only the six listed
fields are ever assigned). -/
def applyAgentData (a d : OmoAgent) : OmoAgent :=
  { a with
    model := overrideField d.model a.model
    temperature := overrideField d.temperature a.temperature
    prompt_append := overrideField d.prompt_append a.prompt_append
    permission := overrideField d.permission a.permission
    description := overrideField d.description a.description
    disable := overrideField d.disable a.disable }

/-- Field-wise update of the modify-category handler. -/
def applyCategoryData (c d : OmoCategory) : OmoCategory :=
  { c with
    model := overrideField d.model c.model
    temperature := overrideField d.temperature c.temperature
    top_p := overrideField d.top_p c.top_p
    maxTokens := overrideField d.maxTokens c.maxTokens
    prompt_append := overrideField d.prompt_append c.prompt_append }

/-- The `add-agent` handler. -/
def execAddAgent (env : Env) (opts : ActionOptions) (st : ConfigState) : ExecResult :=
  match presentKey opts.agentName with
  | none => readOnlyResult st "## Add New Agent"
  | some agentName =>
    if !isSafeConfigKey agentName then
      readOnlyResult st ("## Add New Agent\n\n❌ Invalid agent name: \"" ++ agentName ++
        "\".\n\nUse only letters, numbers, hyphen, underscore (max 64 chars) and avoid reserved keys like \"__proto__\".")
    else if strFalsy opts.agentData.model then
      readOnlyResult st "## Add New Agent\n\n❌ Missing required field: model.\n\nExample: \"add agent debugger with model opencode/gpt-5.2 and temperature 0.2\""
    else if tempOutOfRange opts.agentData.temperature then
      readOnlyResult st "## Add New Agent\n\n❌ Temperature must be between 0.0 and 1.0."
    else
      let b := backupConfigsInternal env.omoPath env.ocPath env.now st.archive
      let agents := st.omo.agents.getD []
      let newOmo := { st.omo with
        agents := some (alistSet agents agentName (mkAddedAgent opts.agentData)) }
      ⟨"## Add New Agent\n\n✅ Successfully added agent \"" ++ agentName ++ "\"",
        newOmo, st.oc, b.archive, [.backupBoth, .writeOmoConfig]⟩

/-- The `modify-agent` handler. -/
def execModifyAgent (env : Env) (opts : ActionOptions) (st : ConfigState) : ExecResult :=
  match presentKey opts.agentName with
  | none => readOnlyResult st "## Modify Agent"
  | some agentName =>
    if !isSafeConfigKey agentName then
      readOnlyResult st ("## Modify Agent\n\n❌ Invalid agent name: \"" ++ agentName ++ "\".")
    else if tempOutOfRange opts.agentData.temperature then
      readOnlyResult st "## Modify Agent\n\n❌ Temperature must be between 0.0 and 1.0."
    else
      match alistGet (st.omo.agents.getD []) agentName with
      | none =>
        readOnlyResult st ("## Modify Agent\n\n❌ Agent \"" ++ agentName ++ "\" not found.")
      | some agent =>
        let b := backupConfigsInternal env.omoPath env.ocPath env.now st.archive
        let newOmo := { st.omo with
          agents := some (alistSet (st.omo.agents.getD []) agentName
            (applyAgentData agent opts.agentData)) }
        ⟨"## Modify Agent\n\n✅ Successfully modified agent \"" ++ agentName ++ "\"",
          newOmo, st.oc, b.archive, [.backupBoth, .writeOmoConfig]⟩

/-- The `add-category` handler. -/
def execAddCategory (env : Env) (opts : ActionOptions) (st : ConfigState) : ExecResult :=
  match presentKey opts.categoryName with
  | none => readOnlyResult st "## Add New Category"
  | some categoryName =>
    if !isSafeConfigKey categoryName then
      readOnlyResult st ("## Add New Category\n\n❌ Invalid category name: \"" ++ categoryName ++
        "\".\n\nUse only letters, numbers, hyphen, underscore (max 64 chars) and avoid reserved keys like \"__proto__\".")
    else if strFalsy opts.categoryData.model then
      readOnlyResult st "## Add New Category\n\n❌ Missing required field: model.\n\nExample: \"add category data-science with model anthropic/claude-sonnet-4.5\""
    else if tempOutOfRange opts.categoryData.temperature then
      readOnlyResult st "## Add New Category\n\n❌ Temperature must be between 0.0 and 1.0."
    else
      let b := backupConfigsInternal env.omoPath env.ocPath env.now st.archive
      let categories := st.omo.categories.getD []
      let newOmo := { st.omo with
        categories := some (alistSet categories categoryName (mkAddedCategory opts.categoryData)) }
      ⟨"## Add New Category\n\n✅ Successfully added category \"" ++ categoryName ++ "\"",
        newOmo, st.oc, b.archive, [.backupBoth, .writeOmoConfig]⟩

/-- The `modify-category` handler. -/
def execModifyCategory (env : Env) (opts : ActionOptions) (st : ConfigState) : ExecResult :=
  match presentKey opts.categoryName with
  | none => readOnlyResult st "## Modify Category"
  | some categoryName =>
    if !isSafeConfigKey categoryName then
      readOnlyResult st ("## Modify Category\n\n❌ Invalid category name: \"" ++ categoryName ++ "\".")
    else if tempOutOfRange opts.categoryData.temperature then
      readOnlyResult st "## Modify Category\n\n❌ Temperature must be between 0.0 and 1.0."
    else
      match alistGet (st.omo.categories.getD []) categoryName with
      | none =>
        readOnlyResult st ("## Modify Category\n\n❌ Category \"" ++ categoryName ++ "\" not found.")
      | some category =>
        let b := backupConfigsInternal env.omoPath env.ocPath env.now st.archive
        let newOmo := { st.omo with
          categories := some (alistSet (st.omo.categories.getD []) categoryName
            (applyCategoryData category opts.categoryData)) }
        ⟨"## Modify Category\n\n✅ Successfully modified category \"" ++ categoryName ++ "\"",
          newOmo, st.oc, b.archive, [.backupBoth, .writeOmoConfig]⟩

/-- The `disable-hook` handler. -/
def execDisableHook (env : Env) (opts : ActionOptions) (st : ConfigState) : ExecResult :=
  match presentKey opts.hookName with
  | none =>
    readOnlyResult st ("## Disable Hook\n\nAvailable hooks:\n" ++
      String.join (KNOWN_HOOKS.map (fun h => "- " ++ h ++ "\n")) ++
      "\nTo disable a hook, specify the hook name.\nExample: \"disable hook comment-checker\"")
  | some hookName =>
    if !KNOWN_HOOKS.contains hookName then
      readOnlyResult st ("## Disable Hook\n\n❌ Unknown hook: \"" ++ hookName ++
        "\"\n\nAvailable hooks: " ++ String.intercalate ", " KNOWN_HOOKS)
    else
      let disabled := st.omo.disabled_hooks.getD []
      if !disabled.contains hookName then
        let b := backupConfigsInternal env.omoPath env.ocPath env.now st.archive
        let newOmo := { st.omo with disabled_hooks := some (disabled ++ [hookName]) }
        ⟨"## Disable Hook\n\n✅ Successfully disabled hook \"" ++ hookName ++ "\"" ++
            dateFooter env,
          newOmo, st.oc, b.archive, [.backupBoth, .writeOmoConfig]⟩
      else
        readOnlyResult st ("## Disable Hook\n\nℹ️ Hook \"" ++ hookName ++
          "\" is already disabled." ++ dateFooter env)

/-- The `enable-hook` handler.  Note: unlike `disable-hook`, it performs
no membership check against `KNOWN_HOOKS`. -/
def execEnableHook (env : Env) (opts : ActionOptions) (st : ConfigState) : ExecResult :=
  match presentKey opts.hookName with
  | none => readOnlyResult st "## Enable Hook"
  | some hookName =>
    match st.omo.disabled_hooks with
    | none =>
      readOnlyResult st ("## Enable Hook\n\nℹ️ Hook \"" ++ hookName ++
        "\" is not currently disabled.")
    | some disabled =>
      if !disabled.contains hookName then
        readOnlyResult st ("## Enable Hook\n\nℹ️ Hook \"" ++ hookName ++
          "\" is not currently disabled.")
      else
        let b := backupConfigsInternal env.omoPath env.ocPath env.now st.archive
        let newOmo := { st.omo with
          disabled_hooks := some (disabled.filter (fun h => h ≠ hookName)) }
        ⟨"## Enable Hook\n\n✅ Successfully enabled hook \"" ++ hookName ++ "\"" ++
            dateFooter env,
          newOmo, st.oc, b.archive, [.backupBoth, .writeOmoConfig]⟩

/-- The `restore-backup` handler.  `existingBackups` is the 5-entry
listing taken at the start of `executeAction`, before the pre-restore
safety backup. -/
def execRestoreBackup (env : Env) (opts : ActionOptions) (st : ConfigState) : ExecResult :=
  let existingBackups := listBackupsN 5 st.archive
  match opts.backupIndex with
  | none => readOnlyResult st "## Restore from Backup"
  | some backupIndex =>
    if backupIndex < 1 ∨ (existingBackups.length : Int) < backupIndex then
      readOnlyResult st ("## Restore from Backup\n\n❌ Invalid backup number. Please choose between 1 and " ++
        toString existingBackups.length ++ ".")
    else
      let backupName := (existingBackups.get? (backupIndex - 1).toNat).getD ""
      let b := backupConfigsInternal env.omoPath env.ocPath env.now st.archive
      if startsWithStr backupName "omo-backup-" then
        ⟨"## Restore from Backup\n\n✅ Successfully restored OMO config from " ++
            backupName ++ dateFooter env,
          env.readOmoBackup backupName, st.oc, b.archive, [.backupBoth, .writeOmoConfig]⟩
      else if startsWithStr backupName "opencode-backup-" then
        ⟨"## Restore from Backup\n\n✅ Successfully restored OpenCode config from " ++
            backupName ++ dateFooter env,
          st.omo, env.readOcBackup backupName, b.archive, [.backupBoth, .writeOcConfig]⟩
      else
        ⟨"## Restore from Backup\n\n❌ Unknown backup type: " ++ backupName,
          st.omo, st.oc, b.archive, [.backupBoth]⟩

/-- The `backup-configs` handler. -/
def execBackupConfigs (env : Env) (st : ConfigState) : ExecResult :=
  let b := backupConfigsInternal env.omoPath env.ocPath env.now st.archive
  ⟨"## Backup Configuration\n\n✅ Successfully backed up configs!\n\nFiles backed up:\n- " ++
      b.omoBackup ++ "\n- " ++ b.ocBackup,
    st.omo, st.oc, b.archive, [.backupBoth]⟩

/-- `executeAction` from core.ts, given the already merged
`effectiveOptions`.  Report bodies of purely read-only listing actions
are elided (header only): no verified property concerns them, and they
perform no filesystem event. -/
def executeAction (env : Env) (action : ActionType) (opts : ActionOptions)
    (st : ConfigState) : ExecResult :=
  match action with
  | .listAgents => readOnlyResult st "## OMO Agents"
  | .listCategories => readOnlyResult st "## OMO Categories"
  | .listSkills => readOnlyResult st "## Available Skills"
  | .checkUpdates => readOnlyResult st "## Checking for Updates"
  | .runDiagnostics => readOnlyResult st "## Running Diagnostics"
  | .backupConfigs => execBackupConfigs env st
  | .showPermissions => readOnlyResult st "## Permission Settings"
  | .compareBackup => readOnlyResult st "## Compare with Backup"
  | .restoreBackup => execRestoreBackup env opts st
  | .addAgent => execAddAgent env opts st
  | .modifyAgent => execModifyAgent env opts st
  | .addCategory => execAddCategory env opts st
  | .modifyCategory => execModifyCategory env opts st
  | .disableHook => execDisableHook env opts st
  | .enableHook => execEnableHook env opts st
  | .listOcModels => readOnlyResult st "## OpenCode Configured Models"
  | .unknown => readOnlyResult st "## OMO Configuration Manager"

/-! ## Claim-support definitions -/

/-- Scan of an event trace: every config-file write must be preceded
(anywhere earlier in the trace) by a backup attempt of both configs.
The flag records whether a backup attempt has been seen so far. -/
def writesBackedUp : Bool → List FsEvent → Bool
  | _, [] => true
  | _, .backupBoth :: rest => writesBackedUp true rest
  | seen, .writeOmoConfig :: rest => seen && writesBackedUp seen rest
  | seen, .writeOcConfig :: rest => seen && writesBackedUp seen rest

/-- The enumerated validation-failure conditions of the spec's common
validation policy: unsafe entity/hook key, out-of-range temperature,
missing required model on add, target entity not found on modify,
unknown hook on disable-hook. -/
def c2ValidationFailure (action : ActionType) (opts : ActionOptions)
    (st : ConfigState) : Bool :=
  match action with
  | .addAgent =>
    match presentKey opts.agentName with
    | none => false
    | some n =>
      !isSafeConfigKey n || strFalsy opts.agentData.model ||
        tempOutOfRange opts.agentData.temperature
  | .modifyAgent =>
    match presentKey opts.agentName with
    | none => false
    | some n =>
      !isSafeConfigKey n || tempOutOfRange opts.agentData.temperature ||
        (alistGet (st.omo.agents.getD []) n).isNone
  | .addCategory =>
    match presentKey opts.categoryName with
    | none => false
    | some n =>
      !isSafeConfigKey n || strFalsy opts.categoryData.model ||
        tempOutOfRange opts.categoryData.temperature
  | .modifyCategory =>
    match presentKey opts.categoryName with
    | none => false
    | some n =>
      !isSafeConfigKey n || tempOutOfRange opts.categoryData.temperature ||
        (alistGet (st.omo.categories.getD []) n).isNone
  | .disableHook =>
    match presentKey opts.hookName with
    | none => false
    | some h => !KNOWN_HOOKS.contains h
  | _ => false

/-- The error report each enumerated validation failure produces, in the
handlers' own checking order. -/
def c2ErrorMessage (action : ActionType) (opts : ActionOptions)
    (_st : ConfigState) : String :=
  match action with
  | .addAgent =>
    match presentKey opts.agentName with
    | none => ""
    | some n =>
      if !isSafeConfigKey n then
        "## Add New Agent\n\n❌ Invalid agent name: \"" ++ n ++
          "\".\n\nUse only letters, numbers, hyphen, underscore (max 64 chars) and avoid reserved keys like \"__proto__\"."
      else if strFalsy opts.agentData.model then
        "## Add New Agent\n\n❌ Missing required field: model.\n\nExample: \"add agent debugger with model opencode/gpt-5.2 and temperature 0.2\""
      else "## Add New Agent\n\n❌ Temperature must be between 0.0 and 1.0."
  | .modifyAgent =>
    match presentKey opts.agentName with
    | none => ""
    | some n =>
      if !isSafeConfigKey n then
        "## Modify Agent\n\n❌ Invalid agent name: \"" ++ n ++ "\"."
      else if tempOutOfRange opts.agentData.temperature then
        "## Modify Agent\n\n❌ Temperature must be between 0.0 and 1.0."
      else "## Modify Agent\n\n❌ Agent \"" ++ n ++ "\" not found."
  | .addCategory =>
    match presentKey opts.categoryName with
    | none => ""
    | some n =>
      if !isSafeConfigKey n then
        "## Add New Category\n\n❌ Invalid category name: \"" ++ n ++
          "\".\n\nUse only letters, numbers, hyphen, underscore (max 64 chars) and avoid reserved keys like \"__proto__\"."
      else if strFalsy opts.categoryData.model then
        "## Add New Category\n\n❌ Missing required field: model.\n\nExample: \"add category data-science with model anthropic/claude-sonnet-4.5\""
      else "## Add New Category\n\n❌ Temperature must be between 0.0 and 1.0."
  | .modifyCategory =>
    match presentKey opts.categoryName with
    | none => ""
    | some n =>
      if !isSafeConfigKey n then
        "## Modify Category\n\n❌ Invalid category name: \"" ++ n ++ "\"."
      else if tempOutOfRange opts.categoryData.temperature then
        "## Modify Category\n\n❌ Temperature must be between 0.0 and 1.0."
      else "## Modify Category\n\n❌ Category \"" ++ n ++ "\" not found."
  | .disableHook =>
    match presentKey opts.hookName with
    | none => ""
    | some h =>
      "## Disable Hook\n\n❌ Unknown hook: \"" ++ h ++
        "\"\n\nAvailable hooks: " ++ String.intercalate ", " KNOWN_HOOKS
  | _ => ""

/-- Modelled from the spec: the acceptance condition the claim states for
the safe-identifier check — the key consists only of letters, digits,
hyphen, underscore, has length at most 64, and is not (case-insensitively)
one of the reserved structural keys.  Used only to compare the claim's
condition against `isSafeConfigKey`. -/
def specSafeKeyAccepts (key : String) : Bool :=
  key.data.all isKeyTailChar && key.data.length ≤ 64 &&
    !FORBIDDEN_KEYS.contains (lowerString key)

/-- Lexicographic strict order on equal-meaning lists of numeric blocks. -/
def lexNat : List Nat → List Nat → Prop
  | [], [] => False
  | [], _ :: _ => True
  | _ :: _, [] => False
  | x :: xs, y :: ys => x < y ∨ (x = y ∧ lexNat xs ys)

/-- The resolved agent-side config path used in concrete scenarios. -/
def omoPathDefault : String := "/home/user/.config/opencode/oh-my-opencode.json"

/-- The resolved provider-side config path used in concrete scenarios. -/
def ocPathDefault : String := "/home/user/.config/opencode/opencode.json"

/-- Archive contents after `n` successful backup operations starting from
an empty archive, the `k`-th operation happening at second `k` of
2026-01-01 (so timestamps strictly increase). -/
def archiveAfterBackups : Nat → List String
  | 0 => []
  | n + 1 =>
    (backupConfigsInternal omoPathDefault ocPathDefault
      ⟨2026, 1, 1, 0, 0, n + 1⟩ (archiveAfterBackups n)).archive

/-- A concrete environment for witness scenarios. -/
def sampleEnv : Env :=
  { omoPath := omoPathDefault
    ocPath := ocPathDefault
    now := ⟨2026, 1, 2, 3, 4, 5⟩
    readOmoBackup := fun _ => {}
    readOcBackup := fun _ => {} }

/-! ## Helper lemmas -/

theorem digitChar_lt_iff : ∀ i, i < 10 → ∀ j, j < 10 →
    (Nat.digitChar i < Nat.digitChar j ↔ i < j) := by decide

theorem digitChar_inj : ∀ i, i < 10 → ∀ j, j < 10 →
    (Nat.digitChar i = Nat.digitChar j ↔ i = j) := by decide

theorem digitChar_isDigit : ∀ i, i < 10 → (Nat.digitChar i).isDigit = true := by decide

theorem digitChar_mod_isDigit (i : Nat) : (Nat.digitChar (i % 10)).isDigit = true :=
  digitChar_isDigit _ (Nat.mod_lt _ (by omega))

theorem pad4_split (n : Nat) : pad4 n = pad2 (n / 100) ++ pad2 (n % 100) := by
  have e1 : n / 1000 % 10 = n / 100 / 10 % 10 := by omega
  have e2 : n / 10 % 10 = n % 100 / 10 % 10 := by omega
  have e3 : n % 10 = n % 100 % 10 := by omega
  apply String.ext
  rw [String.data_append]
  simp only [pad2, pad4]
  rw [e1, e2, e3]
  simp

theorem lexLt_pad2_iff (a b : Nat) (ha : a < 100) (hb : b < 100) :
    (lexLtChars (pad2 a).data (pad2 b).data = true ↔ a < b) := by
  have h1 : a / 10 % 10 = a / 10 := by omega
  have h2 : b / 10 % 10 = b / 10 := by omega
  simp only [pad2, lexLtChars, h1, h2]
  by_cases hlt : Nat.digitChar (a / 10) < Nat.digitChar (b / 10)
  · rw [if_pos hlt]
    rw [digitChar_lt_iff (a / 10) (by omega) (b / 10) (by omega)] at hlt
    simp only [true_iff]
    omega
  · rw [if_neg hlt]
    by_cases hgt : Nat.digitChar (b / 10) < Nat.digitChar (a / 10)
    · rw [if_pos hgt]
      rw [digitChar_lt_iff (b / 10) (by omega) (a / 10) (by omega)] at hgt
      simp only [Bool.false_eq_true, false_iff]
      omega
    · rw [if_neg hgt]
      have heq : a / 10 = b / 10 := by
        by_contra hne
        rcases Nat.lt_or_ge (a / 10) (b / 10) with h | h
        · exact hlt ((digitChar_lt_iff (a / 10) (by omega) (b / 10) (by omega)).mpr h)
        · rcases Nat.lt_or_ge (b / 10) (a / 10) with h' | h'
          · exact hgt ((digitChar_lt_iff (b / 10) (by omega) (a / 10) (by omega)).mpr h')
          · omega
      by_cases hlt0 : Nat.digitChar (a % 10) < Nat.digitChar (b % 10)
      · rw [if_pos hlt0]
        rw [digitChar_lt_iff (a % 10) (by omega) (b % 10) (by omega)] at hlt0
        simp only [true_iff]
        omega
      · rw [if_neg hlt0]
        by_cases hgt0 : Nat.digitChar (b % 10) < Nat.digitChar (a % 10)
        · rw [if_pos hgt0]
          rw [digitChar_lt_iff (b % 10) (by omega) (a % 10) (by omega)] at hgt0
          simp only [Bool.false_eq_true, false_iff]
          omega
        · rw [if_neg hgt0]
          have h0 : a % 10 = b % 10 := by
            by_contra hne
            rcases Nat.lt_or_ge (a % 10) (b % 10) with h | h
            · exact hlt0 ((digitChar_lt_iff (a % 10) (by omega) (b % 10) (by omega)).mpr h)
            · rcases Nat.lt_or_ge (b % 10) (a % 10) with h' | h'
              · exact hgt0 ((digitChar_lt_iff (b % 10) (by omega) (a % 10) (by omega)).mpr h')
              · omega
          simp only [lexLtChars, Bool.false_eq_true, false_iff]
          omega

theorem pad2_data_inj (a b : Nat) (ha : a < 100) (hb : b < 100)
    (h : (pad2 a).data = (pad2 b).data) : a = b := by
  simp only [pad2, List.cons.injEq, and_true] at h
  have h1 := (digitChar_inj (a / 10 % 10) (by omega) (b / 10 % 10) (by omega)).mp h.1
  have h2 := (digitChar_inj (a % 10) (by omega) (b % 10) (by omega)).mp h.2
  omega

theorem pad2_data_iff (a b : Nat) (ha : a < 100) (hb : b < 100) :
    ((pad2 a).data = (pad2 b).data ↔ a = b) :=
  ⟨pad2_data_inj a b ha hb, fun h => h ▸ rfl⟩

theorem lexLtChars_irrefl : ∀ l : List Char, lexLtChars l l = false := by
  intro l
  induction l with
  | nil => rfl
  | cons c cs ih => simp [lexLtChars, ih]

theorem lexLtChars_append : ∀ (a b r s : List Char), a.length = b.length →
    (lexLtChars (a ++ r) (b ++ s) = true ↔
      (lexLtChars a b = true ∨ (a = b ∧ lexLtChars r s = true))) := by
  intro a
  induction a with
  | nil =>
    intro b r s hlen
    cases b with
    | nil => simp [lexLtChars]
    | cons y ys => simp at hlen
  | cons x xs ih =>
    intro b r s hlen
    cases b with
    | nil => simp at hlen
    | cons y ys =>
      simp only [List.length_cons, Nat.add_right_cancel_iff] at hlen
      simp only [List.cons_append, lexLtChars, List.append_eq]
      by_cases hxy : x < y
      · simp [lexLtChars, hxy]
      · by_cases hyx : y < x
        · simp only [if_neg hxy, if_pos hyx, Bool.false_eq_true, false_iff]
          rintro (h | ⟨heq, -⟩)
          · simp [lexLtChars, if_neg hxy, if_pos hyx] at h
          · injection heq with h1 h2
            exact hyx.ne h1.symm
        · have hxyeq : x = y := le_antisymm (not_lt.mp hyx) (not_lt.mp hxy)
          subst hxyeq
          simp only [if_neg hxy, if_neg hyx]
          rw [ih ys r s hlen]
          simp [lexLtChars, if_neg hxy, List.cons.injEq]

theorem createTimestamp_data (d : DateTime) :
    (createTimestamp d).data =
      (pad2 (d.year / 100)).data ++ ((pad2 (d.year % 100)).data ++ ((pad2 d.month).data ++
        ((pad2 d.day).data ++ (['-'] ++ ((pad2 d.hour).data ++ ((pad2 d.minute).data ++
          (pad2 d.second).data)))))) := by
  simp [createTimestamp, pad4_split, String.data_append, List.append_assoc]

theorem createTimestamp_lt_iff (d1 d2 : DateTime) (h1 : ValidDT d1) (h2 : ValidDT d2) :
    (strLtB (createTimestamp d1) (createTimestamp d2) = true ↔ dtLt d1 d2) := by
  obtain ⟨hy1, hmo1, hda1, hho1, hmi1, hse1⟩ := h1
  obtain ⟨hy2, hmo2, hda2, hho2, hmi2, hse2⟩ := h2
  rw [strLtB, createTimestamp_data, createTimestamp_data]
  rw [lexLtChars_append (pad2 (d1.year / 100)).data (pad2 (d2.year / 100)).data _ _ rfl,
    lexLtChars_append (pad2 (d1.year % 100)).data (pad2 (d2.year % 100)).data _ _ rfl,
    lexLtChars_append (pad2 d1.month).data (pad2 d2.month).data _ _ rfl,
    lexLtChars_append (pad2 d1.day).data (pad2 d2.day).data _ _ rfl,
    lexLtChars_append ['-'] ['-'] _ _ rfl,
    lexLtChars_append (pad2 d1.hour).data (pad2 d2.hour).data _ _ rfl,
    lexLtChars_append (pad2 d1.minute).data (pad2 d2.minute).data _ _ rfl]
  have hdash : lexLtChars ['-'] ['-'] = false := by decide
  rw [hdash]
  rw [lexLt_pad2_iff (d1.year / 100) (d2.year / 100) (by omega) (by omega),
    lexLt_pad2_iff (d1.year % 100) (d2.year % 100) (by omega) (by omega),
    lexLt_pad2_iff d1.month d2.month (by omega) (by omega),
    lexLt_pad2_iff d1.day d2.day (by omega) (by omega),
    lexLt_pad2_iff d1.hour d2.hour (by omega) (by omega),
    lexLt_pad2_iff d1.minute d2.minute (by omega) (by omega),
    lexLt_pad2_iff d1.second d2.second (by omega) (by omega)]
  rw [pad2_data_iff (d1.year / 100) (d2.year / 100) (by omega) (by omega),
    pad2_data_iff (d1.year % 100) (d2.year % 100) (by omega) (by omega),
    pad2_data_iff d1.month d2.month (by omega) (by omega),
    pad2_data_iff d1.day d2.day (by omega) (by omega),
    pad2_data_iff d1.hour d2.hour (by omega) (by omega),
    pad2_data_iff d1.minute d2.minute (by omega) (by omega)]
  simp only [dtLt, Bool.false_eq_true, false_or, true_and, and_true, eq_self_iff_true]
  omega

theorem createTimestamp_inj (d1 d2 : DateTime) (h1 : ValidDT d1) (h2 : ValidDT d2) :
    (createTimestamp d1 = createTimestamp d2 ↔ d1 = d2) := by
  constructor
  · intro heq
    by_contra hne
    have htri : dtLt d1 d2 ∨ dtLt d2 d1 := by
      obtain ⟨y1, mo1, da1, ho1, mi1, se1⟩ := d1
      obtain ⟨y2, mo2, da2, ho2, mi2, se2⟩ := d2
      simp only [DateTime.mk.injEq] at hne
      simp only [dtLt]
      omega
    rcases htri with h | h
    · have hlt := (createTimestamp_lt_iff d1 d2 h1 h2).mpr h
      rw [heq, strLtB, lexLtChars_irrefl] at hlt
      simp at hlt
    · have hlt := (createTimestamp_lt_iff d2 d1 h2 h1).mpr h
      rw [heq, strLtB, lexLtChars_irrefl] at hlt
      simp at hlt
  · rintro rfl
    rfl

theorem alistGet_alistSet_self {α : Type} (l : List (String × α)) (k : String) (v : α) :
    alistGet (alistSet l k v) k = some v := by
  induction l with
  | nil => simp [alistSet, alistGet]
  | cons p rest ih =>
    obtain ⟨k', v'⟩ := p
    by_cases h : (k' == k) = true
    · simp [alistSet, alistGet, h]
    · simp only [alistSet, alistGet, h, Bool.false_eq_true, if_false, if_neg]
      exact ih

theorem head_imp_tail (c : Char) (h : isKeyHeadChar c = true) : isKeyTailChar c = true := by
  simp only [isKeyHeadChar, Bool.or_eq_true] at h
  simp only [isKeyTailChar, Bool.or_eq_true]
  tauto

theorem createTimestamp_format (d : DateTime) :
    (createTimestamp d).data.length = 15 ∧
    (createTimestamp d).data.all (fun c => c.isDigit || c == '-') = true ∧
    (createTimestamp d).data.get? 8 = some '-' := by
  refine ⟨?_, ?_, ?_⟩ <;>
    simp [createTimestamp, pad4, pad2, String.data_append, digitChar_mod_isDigit]

theorem observedDateTime_zero (i : TZInstant) (h : i.sodUTC < 86400) :
    observedDateTime i 0 =
      ⟨i.year, i.month, i.day, i.sodUTC / 3600, i.sodUTC / 60 % 60, i.sodUTC % 60⟩ := by
  have hl : (((i.sodUTC : Int) + 0 * 60) % 86400).toNat = i.sodUTC := by omega
  simp only [observedDateTime, hl]

theorem validDT_mk (y mo da h mi s : Nat) (hy : y < 10000) (hmo : mo < 100)
    (hda : da < 100) (hh : h < 100) (hmi : mi < 100) (hs : s < 100) :
    ValidDT ⟨y, mo, da, h, mi, s⟩ := by
  unfold ValidDT
  exact ⟨hy, hmo, hda, hh, hmi, hs⟩

/-- Under offset 0 (process timezone UTC) the two field groups a `Date`
yields are coherent, and the program's timestamps order exactly like the
instants they were taken at. -/
theorem programTimestamp_utc_sortable (i1 i2 : TZInstant)
    (h1 : ValidInstant i1) (h2 : ValidInstant i2) :
    (strLtB (programTimestamp i1 0) (programTimestamp i2 0) = true ↔ instantLt i1 i2) ∧
    (programTimestamp i1 0 = programTimestamp i2 0 ↔ i1 = i2) := by
  obtain ⟨y1, mo1, da1, sod1⟩ := i1
  obtain ⟨y2, mo2, da2, sod2⟩ := i2
  obtain ⟨hy1, hmo1, hda1, hsod1⟩ := h1
  obtain ⟨hy2, hmo2, hda2, hsod2⟩ := h2
  dsimp only at hy1 hmo1 hda1 hsod1 hy2 hmo2 hda2 hsod2
  rw [programTimestamp, programTimestamp,
    observedDateTime_zero _ hsod1, observedDateTime_zero _ hsod2]
  have v1 := validDT_mk y1 mo1 da1 (sod1 / 3600) (sod1 / 60 % 60) (sod1 % 60)
    hy1 hmo1 hda1 (by omega) (by omega) (by omega)
  have v2 := validDT_mk y2 mo2 da2 (sod2 / 3600) (sod2 / 60 % 60) (sod2 % 60)
    hy2 hmo2 hda2 (by omega) (by omega) (by omega)
  constructor
  · rw [createTimestamp_lt_iff _ _ v1 v2]
    dsimp only [dtLt, instantLt]
    omega
  · rw [createTimestamp_inj _ _ v1 v2]
    simp only [DateTime.mk.injEq, TZInstant.mk.injEq]
    omega

/-! ## Claim theorems -/

/-- Claim C1: for every action (in particular every mutating one:
add-agent, modify-agent, add-category, modify-category, disable-hook,
enable-hook, restore-backup), whenever `executeAction` writes either
config file, a backup attempt of both config files (`backupBoth`)
occurs earlier in the event trace; no config write happens without a
preceding backup attempt. -/
theorem backup_precedes_every_config_write (env : Env) (action : ActionType)
    (opts : ActionOptions) (st : ConfigState) :
    writesBackedUp false (executeAction env action opts st).events = true := by
  cases action <;>
    simp only [executeAction, execBackupConfigs, execRestoreBackup, execAddAgent,
      execModifyAgent, execAddCategory, execModifyCategory, execDisableHook,
      execEnableHook, readOnlyResult] <;>
    (repeat' split) <;>
    simp [writesBackedUp]

/-- Claim C2: whenever one of the enumerated validation failures holds
(unsafe entity/hook key, out-of-range temperature, missing model on
add, entity not found on modify, unknown hook on disable-hook), the
handler returns exactly the corresponding user-facing error report and
performs no filesystem event at all: no backup, no config write, and
the persisted configs and archive are unchanged. -/
theorem validation_failure_is_inert (env : Env) (action : ActionType)
    (opts : ActionOptions) (st : ConfigState)
    (h : c2ValidationFailure action opts st = true) :
    executeAction env action opts st = readOnlyResult st (c2ErrorMessage action opts st) := by
  cases action <;>
    simp only [executeAction, execAddAgent, execModifyAgent, execAddCategory,
      execModifyCategory, execDisableHook, c2ErrorMessage, c2ValidationFailure] at h ⊢ <;>
    (repeat' split at h) <;>
    (repeat' split) <;>
    simp_all [readOnlyResult]

/-- Witness for C2: the add-agent handler at the concrete unsafe name
"bad name" returns the invalid-name error and leaves everything
untouched. -/
theorem validation_failure_is_inert_witness :
    executeAction sampleEnv .addAgent { agentName := some "bad name" } ⟨{}, {}, []⟩ =
      readOnlyResult ⟨{}, {}, []⟩
        (c2ErrorMessage .addAgent { agentName := some "bad name" } ⟨{}, {}, []⟩) :=
  validation_failure_is_inert sampleEnv .addAgent { agentName := some "bad name" }
    ⟨{}, {}, []⟩ (by decide)

/-- Claim C3 (evaluation at the failing input): `parseAction` maps the
request "update my agent" to `check-updates`, because the rule
`hasWord("update")` fires before the modify-agent rule — the claim and
the spec require modify-agent here, and the `update` disjunct of the
modify-agent rule in the source is unreachable. -/
theorem parseAction_update_my_agent :
    parseAction "update my agent" = ActionType.checkUpdates := by decide

/-- Counterexample for C4, refuting both false parts of the claim at
concrete inputs.  First, the backup of the agent-side config is named
with the prefix "omo-backup-", not "agent-backup-".  Second, the
timestamp is not sortable in a non-UTC timezone: `createTimestamp`
takes its date from `toISOString` (UTC) but its time from
`toTimeString` (local clock), so at offset +540 minutes (Tokyo) the
instant 14:59:00 UTC of 2026-01-01 stamps as "20260101-235900" while
the *later* instant 15:01:00 UTC of the same UTC day stamps as
"20260101-000100" — the later instant's timestamp sorts strictly
below the earlier one's. -/
theorem backup_filename_claim_counterexample :
    ((backupConfigsInternal omoPathDefault ocPathDefault ⟨2026, 1, 1, 0, 0, 0⟩ []).omoBackup =
        "omo-backup-20260101-000000.json" ∧
      startsWithStr
        (backupConfigsInternal omoPathDefault ocPathDefault ⟨2026, 1, 1, 0, 0, 0⟩ []).omoBackup
        "agent-backup-" = false) ∧
    (instantLt ⟨2026, 1, 1, 53940⟩ ⟨2026, 1, 1, 54060⟩ ∧
      programTimestamp ⟨2026, 1, 1, 53940⟩ 540 = "20260101-235900" ∧
      programTimestamp ⟨2026, 1, 1, 54060⟩ 540 = "20260101-000100" ∧
      strLtB (programTimestamp ⟨2026, 1, 1, 54060⟩ 540)
        (programTimestamp ⟨2026, 1, 1, 53940⟩ 540) = true) := by decide

/-- Claim C4 (amended): every backup file pair is named
`omo-backup-<timestamp><ext>` (agent side; not `agent-backup-`) and
`opencode-backup-<timestamp><ext>` (provider side), where the extension
mirrors the source file's extension and defaults to ".json", and the
timestamp has the 15-character `YYYYMMDD-HHMMSS` digit layout.  Because
the date block is the UTC date while the time block is the local
wall-clock time, the timestamp is sortable (lexicographic order on the
produced strings coincides with chronological order of the instants,
and equal timestamps come from equal instants) only when the process
timezone offset is zero — which is what the last conjunct proves; the
counterexample shows sortability fails at a non-zero offset. -/
theorem backup_filename_format_amended :
    (∀ (omoPath ocPath : String) (now : DateTime) (archive : List String),
      (backupConfigsInternal omoPath ocPath now archive).omoBackup =
        "omo-backup-" ++ createTimestamp now ++ extnameOrJson omoPath ∧
      (backupConfigsInternal omoPath ocPath now archive).ocBackup =
        "opencode-backup-" ++ createTimestamp now ++ extnameOrJson ocPath) ∧
    (extnameOrJson omoPathDefault = ".json" ∧
      extnameOrJson "/home/user/.config/opencode/oh-my-opencode.jsonc" = ".jsonc" ∧
      extnameOrJson "/home/user/.config/opencode/oh-my-opencode" = ".json") ∧
    (∀ d : DateTime,
      (createTimestamp d).data.length = 15 ∧
      (createTimestamp d).data.all (fun c => c.isDigit || c == '-') = true ∧
      (createTimestamp d).data.get? 8 = some '-') ∧
    (∀ i1 i2 : TZInstant, ValidInstant i1 → ValidInstant i2 →
      ((strLtB (programTimestamp i1 0) (programTimestamp i2 0) = true ↔ instantLt i1 i2) ∧
        (programTimestamp i1 0 = programTimestamp i2 0 ↔ i1 = i2))) :=
  ⟨fun _ _ _ _ => ⟨rfl, rfl⟩,
   by decide,
   createTimestamp_format,
   programTimestamp_utc_sortable⟩

/-- Witness for C4: under offset 0, two concrete instants a second
apart produce lexicographically increasing timestamps. -/
theorem backup_filename_format_amended_witness :
    strLtB (programTimestamp ⟨2026, 1, 1, 1⟩ 0) (programTimestamp ⟨2026, 1, 1, 2⟩ 0) = true :=
  (backup_filename_format_amended.2.2.2 ⟨2026, 1, 1, 1⟩ ⟨2026, 1, 1, 2⟩
    (by decide) (by decide)).1.mpr (by decide)

/-- Claim C5 (evaluation at the failing input): starting from an empty
archive, after 6 successful backup operations with strictly increasing
timestamps, the archive holds exactly 5 entries, but they are NOT the 5
most recently created by timestamp: "opencode-backup-" sorts
lexicographically above "omo-backup-", so the sweep retains five
provider-side backups and has deleted every agent-side backup — even
`omo-backup-20260101-000006.json`, the newest file of all, is gone. -/
theorem retention_keeps_lexicographic_top5_not_newest :
    archiveAfterBackups 6 =
      [ "opencode-backup-20260101-000002.json"
      , "opencode-backup-20260101-000003.json"
      , "opencode-backup-20260101-000004.json"
      , "opencode-backup-20260101-000005.json"
      , "opencode-backup-20260101-000006.json" ] ∧
    (archiveAfterBackups 6).length = 5 ∧
    (archiveAfterBackups 6).contains "omo-backup-20260101-000006.json" = false := by decide

/-- Claim C6: for the four add/modify actions, with a valid name (and,
for add, a model; for modify, an existing target) and a supplied
temperature t, the handler performs the config write if and only if
0 ≤ t ≤ 1. -/
theorem temperature_bounds_iff :
    (∀ (env : Env) (st : ConfigState) (opts : ActionOptions) (n : String) (t : Rat),
      presentKey opts.agentName = some n →
      isSafeConfigKey n = true →
      strFalsy opts.agentData.model = false →
      opts.agentData.temperature = some t →
      (FsEvent.writeOmoConfig ∈ (executeAction env .addAgent opts st).events ↔
        0 ≤ t ∧ t ≤ 1)) ∧
    (∀ (env : Env) (st : ConfigState) (opts : ActionOptions) (n : String) (a : OmoAgent) (t : Rat),
      presentKey opts.agentName = some n →
      isSafeConfigKey n = true →
      alistGet (st.omo.agents.getD []) n = some a →
      opts.agentData.temperature = some t →
      (FsEvent.writeOmoConfig ∈ (executeAction env .modifyAgent opts st).events ↔
        0 ≤ t ∧ t ≤ 1)) ∧
    (∀ (env : Env) (st : ConfigState) (opts : ActionOptions) (n : String) (t : Rat),
      presentKey opts.categoryName = some n →
      isSafeConfigKey n = true →
      strFalsy opts.categoryData.model = false →
      opts.categoryData.temperature = some t →
      (FsEvent.writeOmoConfig ∈ (executeAction env .addCategory opts st).events ↔
        0 ≤ t ∧ t ≤ 1)) ∧
    (∀ (env : Env) (st : ConfigState) (opts : ActionOptions) (n : String) (c : OmoCategory) (t : Rat),
      presentKey opts.categoryName = some n →
      isSafeConfigKey n = true →
      alistGet (st.omo.categories.getD []) n = some c →
      opts.categoryData.temperature = some t →
      (FsEvent.writeOmoConfig ∈ (executeAction env .modifyCategory opts st).events ↔
        0 ≤ t ∧ t ≤ 1)) := by
  refine ⟨?_, ?_, ?_, ?_⟩
  · intro env st opts n t hn hs hm ht
    simp only [executeAction, execAddAgent, hn, hs, hm, ht]
    simp only [Bool.not_true, Bool.false_eq_true, if_false]
    split
    · next h =>
      simp only [tempOutOfRange, Bool.or_eq_true, decide_eq_true_eq] at h
      simp only [readOnlyResult, List.not_mem_nil, false_iff]
      rintro ⟨h0, h1⟩
      rcases h with h | h <;> linarith
    · next h =>
      simp only [tempOutOfRange, Bool.or_eq_true, decide_eq_true_eq] at h
      push_neg at h
      simp
      exact ⟨h.1, h.2⟩
  · intro env st opts n a t hn hs hex ht
    simp only [executeAction, execModifyAgent, hn, hs, ht, hex]
    simp only [Bool.not_true, Bool.false_eq_true, if_false]
    split
    · next h =>
      simp only [tempOutOfRange, Bool.or_eq_true, decide_eq_true_eq] at h
      simp only [readOnlyResult, List.not_mem_nil, false_iff]
      rintro ⟨h0, h1⟩
      rcases h with h | h <;> linarith
    · next h =>
      simp only [tempOutOfRange, Bool.or_eq_true, decide_eq_true_eq] at h
      push_neg at h
      simp
      exact ⟨h.1, h.2⟩
  · intro env st opts n t hn hs hm ht
    simp only [executeAction, execAddCategory, hn, hs, hm, ht]
    simp only [Bool.not_true, Bool.false_eq_true, if_false]
    split
    · next h =>
      simp only [tempOutOfRange, Bool.or_eq_true, decide_eq_true_eq] at h
      simp only [readOnlyResult, List.not_mem_nil, false_iff]
      rintro ⟨h0, h1⟩
      rcases h with h | h <;> linarith
    · next h =>
      simp only [tempOutOfRange, Bool.or_eq_true, decide_eq_true_eq] at h
      push_neg at h
      simp
      exact ⟨h.1, h.2⟩
  · intro env st opts n c t hn hs hex ht
    simp only [executeAction, execModifyCategory, hn, hs, ht, hex]
    simp only [Bool.not_true, Bool.false_eq_true, if_false]
    split
    · next h =>
      simp only [tempOutOfRange, Bool.or_eq_true, decide_eq_true_eq] at h
      simp only [readOnlyResult, List.not_mem_nil, false_iff]
      rintro ⟨h0, h1⟩
      rcases h with h | h <;> linarith
    · next h =>
      simp only [tempOutOfRange, Bool.or_eq_true, decide_eq_true_eq] at h
      push_neg at h
      simp
      exact ⟨h.1, h.2⟩

/-- Witness for C6: adding agent "debugger" with model and the boundary
temperature t = 1 performs the config write. -/
theorem temperature_bounds_iff_witness :
    FsEvent.writeOmoConfig ∈
      (executeAction sampleEnv .addAgent
        { agentName := some "debugger",
          agentData := { model := some "opencode/gpt-5.2", temperature := some 1 } }
        ⟨{}, {}, []⟩).events :=
  (temperature_bounds_iff.1 sampleEnv ⟨{}, {}, []⟩
    { agentName := some "debugger",
      agentData := { model := some "opencode/gpt-5.2", temperature := some 1 } }
    "debugger" 1 (by decide) (by decide) (by decide) (by decide)).mpr (by norm_num)

/-- Counterexample for C7: the claim's acceptance condition (only
letters/digits/hyphen/underscore, length at most 64, not a reserved
key) accepts "_a", but `isSafeConfigKey` rejects it: the code
additionally requires the first character to be a letter or digit. -/
theorem safe_key_claim_counterexample :
    specSafeKeyAccepts "_a" = true ∧ isSafeConfigKey "_a" = false := by decide

/-- Claim C7 (amended): `isSafeConfigKey` accepts a key iff it satisfies
the claim's condition (only letters/digits/hyphen/underscore, length at
most 64, not case-insensitively a reserved structural key) AND is
non-empty with a letter or digit as first character.  In particular
"__proto__" is rejected, a conforming 64-character name is accepted, a
65-character name is rejected, and at the concrete "__proto__" inputs
the add-agent, add-category and disable-hook handlers leave the config
untouched with no filesystem event. -/
theorem safe_key_characterization_amended :
    (∀ k : String,
      isSafeConfigKey k =
        (specSafeKeyAccepts k && !k.data.isEmpty && isKeyHeadChar (k.data.headD 'a'))) ∧
    isSafeConfigKey "__proto__" = false ∧
    isSafeConfigKey "aaaaaaaaaaaaaaaaaaaaaaaaaaaaaaaaaaaaaaaaaaaaaaaaaaaaaaaaaaaaaaaa" = true ∧
    isSafeConfigKey "aaaaaaaaaaaaaaaaaaaaaaaaaaaaaaaaaaaaaaaaaaaaaaaaaaaaaaaaaaaaaaaaa" = false ∧
    (executeAction sampleEnv .addAgent
        { agentName := some "__proto__", agentData := { model := some "m" } }
        ⟨{}, {}, []⟩).omo = ({} : OmoConfig) ∧
    (executeAction sampleEnv .addAgent
        { agentName := some "__proto__", agentData := { model := some "m" } }
        ⟨{}, {}, []⟩).events = [] ∧
    (executeAction sampleEnv .addCategory
        { categoryName := some "__proto__", categoryData := { model := some "m" } }
        ⟨{}, {}, []⟩).omo = ({} : OmoConfig) ∧
    (executeAction sampleEnv .addCategory
        { categoryName := some "__proto__", categoryData := { model := some "m" } }
        ⟨{}, {}, []⟩).events = [] ∧
    (executeAction sampleEnv .disableHook { hookName := some "__proto__" }
        ⟨{}, {}, []⟩).omo = ({} : OmoConfig) ∧
    (executeAction sampleEnv .disableHook { hookName := some "__proto__" }
        ⟨{}, {}, []⟩).events = [] := by
  refine ⟨?_, by decide, by decide, by decide, by decide, by decide, by decide, by decide,
    by decide, by decide⟩
  intro k
  rcases hk : k.data with _ | ⟨c, cs⟩
  · unfold isSafeConfigKey specSafeKeyAccepts
    rw [hk]
    simp
  · unfold isSafeConfigKey matchesSafeKeyPattern specSafeKeyAccepts
    rw [hk]
    simp only [List.isEmpty_cons, List.headD_cons, Bool.not_false, Bool.and_true,
      Bool.false_eq_true, if_false]
    by_cases hf : FORBIDDEN_KEYS.contains (lowerString k) = true
    · have hmem : lowerString k ∈ FORBIDDEN_KEYS := by simpa using hf
      simp [hf, hmem]
    · simp only [Bool.not_eq_true] at hf
      simp only [hf, Bool.not_false, Bool.and_true, Bool.false_eq_true, if_false]
      cases hhead : isKeyHeadChar c
      · simp [hhead]
      · have htail : isKeyTailChar c = true := head_imp_tail c hhead
        simp only [hhead, htail, Bool.true_and, Bool.and_true, List.all_cons, List.length_cons]
        have h64 : decide (cs.length + 1 ≤ 64) = decide (cs.length ≤ 63) := by
          simp [Nat.succ_le_succ_iff]
        rw [h64, Bool.and_comm]

/-- Counterexample for C8: enable-hook does not validate against the
known-hooks registry — with the unknown name "bogus-hook" present in
disabled_hooks, the enable-hook action mutates disabled_hooks and
writes the config instead of rejecting. -/
theorem enable_hook_unknown_mutates_counterexample :
    KNOWN_HOOKS.contains "bogus-hook" = false ∧
    (executeAction sampleEnv .enableHook { hookName := some "bogus-hook" }
        ⟨{ disabled_hooks := some ["bogus-hook"] }, {}, []⟩).events =
      [.backupBoth, .writeOmoConfig] ∧
    (executeAction sampleEnv .enableHook { hookName := some "bogus-hook" }
        ⟨{ disabled_hooks := some ["bogus-hook"] }, {}, []⟩).omo.disabled_hooks =
      some [] := by decide

/-- Claim C8 (amended): only disable-hook validates hook names against
the fixed registry — an unknown name is rejected with an error listing
the valid set and no mutation or write.  Enable-hook performs no
registry check: a name not currently in disabled_hooks (known or not)
yields an informational "not currently disabled" report with no
mutation, while any name present in disabled_hooks — including one
outside the registry — is removed and the config written. -/
theorem hook_registry_check_amended :
    (∀ (env : Env) (st : ConfigState) (opts : ActionOptions) (h : String),
      presentKey opts.hookName = some h →
      KNOWN_HOOKS.contains h = false →
      executeAction env .disableHook opts st =
        readOnlyResult st ("## Disable Hook\n\n❌ Unknown hook: \"" ++ h ++
          "\"\n\nAvailable hooks: " ++ String.intercalate ", " KNOWN_HOOKS)) ∧
    (∀ (env : Env) (st : ConfigState) (opts : ActionOptions) (h : String),
      presentKey opts.hookName = some h →
      (st.omo.disabled_hooks.getD []).contains h = false →
      executeAction env .enableHook opts st =
        readOnlyResult st ("## Enable Hook\n\nℹ️ Hook \"" ++ h ++
          "\" is not currently disabled.")) ∧
    (∀ (env : Env) (st : ConfigState) (opts : ActionOptions) (h : String) (dh : List String),
      presentKey opts.hookName = some h →
      st.omo.disabled_hooks = some dh →
      dh.contains h = true →
      (executeAction env .enableHook opts st).events = [.backupBoth, .writeOmoConfig] ∧
      (executeAction env .enableHook opts st).omo.disabled_hooks =
        some (dh.filter (fun x => x ≠ h))) := by
  refine ⟨?_, ?_, ?_⟩
  · intro env st opts h hp hk
    have hk' : h ∉ KNOWN_HOOKS := by simpa using hk
    simp [executeAction, execDisableHook, hp, hk']
  · intro env st opts h hp hcont
    rcases hd : st.omo.disabled_hooks with _ | dh
    · simp [executeAction, execEnableHook, hp, hd]
    · rw [hd] at hcont
      have hcont' : h ∉ dh := by simpa using hcont
      simp [executeAction, execEnableHook, hp, hd, hcont']
  · intro env st opts h dh hp hd hcont
    have hcont' : h ∈ dh := by simpa using hcont
    constructor <;> simp [executeAction, execEnableHook, hp, hd, hcont']

/-- Witness for C8: disabling the concrete unknown hook "bogus-hook" on
an empty config is rejected with the registry listing and no change. -/
theorem hook_registry_check_amended_witness :
    executeAction sampleEnv .disableHook { hookName := some "bogus-hook" } ⟨{}, {}, []⟩ =
      readOnlyResult ⟨{}, {}, []⟩ ("## Disable Hook\n\n❌ Unknown hook: \"" ++ "bogus-hook" ++
        "\"\n\nAvailable hooks: " ++ String.intercalate ", " KNOWN_HOOKS) :=
  hook_registry_check_amended.1 sampleEnv ⟨{}, {}, []⟩ { hookName := some "bogus-hook" }
    "bogus-hook" (by decide) (by decide)

/-- Claim C9: disable-hook is idempotent.  Disabling a known hook that
is already in disabled_hooks returns the informational
"already disabled" report and changes nothing (no backup, no write);
disabling a hook that is not yet disabled appends it and writes once,
and a second identical invocation on the resulting state reports
"already disabled" with no further filesystem event and no change. -/
theorem disable_hook_idempotent :
    (∀ (env : Env) (st : ConfigState) (opts : ActionOptions) (h : String),
      presentKey opts.hookName = some h →
      KNOWN_HOOKS.contains h = true →
      (st.omo.disabled_hooks.getD []).contains h = true →
      executeAction env .disableHook opts st =
        readOnlyResult st ("## Disable Hook\n\nℹ️ Hook \"" ++ h ++
          "\" is already disabled." ++ dateFooter env)) ∧
    (∀ (env env' : Env) (st : ConfigState) (opts : ActionOptions) (h : String),
      presentKey opts.hookName = some h →
      KNOWN_HOOKS.contains h = true →
      (st.omo.disabled_hooks.getD []).contains h = false →
      (executeAction env .disableHook opts st).events = [.backupBoth, .writeOmoConfig] ∧
      (executeAction env .disableHook opts st).omo.disabled_hooks =
        some (st.omo.disabled_hooks.getD [] ++ [h]) ∧
      (executeAction env' .disableHook opts
          ⟨(executeAction env .disableHook opts st).omo,
           (executeAction env .disableHook opts st).oc,
           (executeAction env .disableHook opts st).archive⟩) =
        readOnlyResult
          ⟨(executeAction env .disableHook opts st).omo,
           (executeAction env .disableHook opts st).oc,
           (executeAction env .disableHook opts st).archive⟩
          ("## Disable Hook\n\nℹ️ Hook \"" ++ h ++
            "\" is already disabled." ++ dateFooter env')) := by
  constructor
  · intro env st opts h hp hk hcont
    have hk' : h ∈ KNOWN_HOOKS := by simpa using hk
    have hcont' : h ∈ st.omo.disabled_hooks.getD [] := by simpa using hcont
    simp [executeAction, execDisableHook, hp, hk', hcont']
  · intro env env' st opts h hp hk hcont
    have hk' : h ∈ KNOWN_HOOKS := by simpa using hk
    have hcont' : h ∉ st.omo.disabled_hooks.getD [] := by simpa using hcont
    have hmain : executeAction env .disableHook opts st =
        ⟨"## Disable Hook\n\n✅ Successfully disabled hook \"" ++ h ++ "\"" ++ dateFooter env,
         { st.omo with disabled_hooks := some (st.omo.disabled_hooks.getD [] ++ [h]) },
         st.oc,
         (backupConfigsInternal env.omoPath env.ocPath env.now st.archive).archive,
         [.backupBoth, .writeOmoConfig]⟩ := by
      simp [executeAction, execDisableHook, hp, hk', hcont']
    rw [hmain]
    refine ⟨rfl, rfl, ?_⟩
    simp [executeAction, execDisableHook, hp, hk']

/-- Witness for C9: disabling the already-disabled "comment-checker"
hook returns the informational report and changes nothing. -/
theorem disable_hook_idempotent_witness :
    executeAction sampleEnv .disableHook { hookName := some "comment-checker" }
        ⟨{ disabled_hooks := some ["comment-checker"] }, {}, []⟩ =
      readOnlyResult ⟨{ disabled_hooks := some ["comment-checker"] }, {}, []⟩
        ("## Disable Hook\n\nℹ️ Hook \"" ++ "comment-checker" ++
          "\" is already disabled." ++ dateFooter sampleEnv) :=
  disable_hook_idempotent.1 sampleEnv
    ⟨{ disabled_hooks := some ["comment-checker"] }, {}, []⟩
    { hookName := some "comment-checker" } "comment-checker"
    (by decide) (by decide) (by decide)

/-- Claim C10: add-agent and add-category perform no duplicate-name
check — with valid parameters and a name that already has an entry, the
add succeeds (backup then write) and the stored entry is rebuilt purely
from the supplied data: the agent entry carries only the six copied
fields (tools, top_p, maxTokens are always absent), and the category
entry only the five copied fields, regardless of what the old entry
contained. -/
theorem add_replaces_existing_wholesale :
    (∀ (env : Env) (st : ConfigState) (opts : ActionOptions) (n : String) (old : OmoAgent),
      presentKey opts.agentName = some n →
      isSafeConfigKey n = true →
      strFalsy opts.agentData.model = false →
      tempOutOfRange opts.agentData.temperature = false →
      alistGet (st.omo.agents.getD []) n = some old →
      (executeAction env .addAgent opts st).events = [.backupBoth, .writeOmoConfig] ∧
      alistGet ((executeAction env .addAgent opts st).omo.agents.getD []) n =
        some (mkAddedAgent opts.agentData) ∧
      (mkAddedAgent opts.agentData).tools = none ∧
      (mkAddedAgent opts.agentData).top_p = none ∧
      (mkAddedAgent opts.agentData).maxTokens = none) ∧
    (∀ (env : Env) (st : ConfigState) (opts : ActionOptions) (n : String) (old : OmoCategory),
      presentKey opts.categoryName = some n →
      isSafeConfigKey n = true →
      strFalsy opts.categoryData.model = false →
      tempOutOfRange opts.categoryData.temperature = false →
      alistGet (st.omo.categories.getD []) n = some old →
      (executeAction env .addCategory opts st).events = [.backupBoth, .writeOmoConfig] ∧
      alistGet ((executeAction env .addCategory opts st).omo.categories.getD []) n =
        some (mkAddedCategory opts.categoryData)) := by
  constructor
  · intro env st opts n old hp hs hm ht hold
    have hmain : executeAction env .addAgent opts st =
        ⟨"## Add New Agent\n\n✅ Successfully added agent \"" ++ n ++ "\"",
         { st.omo with
            agents := some (alistSet (st.omo.agents.getD []) n (mkAddedAgent opts.agentData)) },
         st.oc,
         (backupConfigsInternal env.omoPath env.ocPath env.now st.archive).archive,
         [.backupBoth, .writeOmoConfig]⟩ := by
      simp [executeAction, execAddAgent, hp, hs, hm, ht]
    rw [hmain]
    exact ⟨rfl, by simp [alistGet_alistSet_self], rfl, rfl, rfl⟩
  · intro env st opts n old hp hs hm ht hold
    have hmain : executeAction env .addCategory opts st =
        ⟨"## Add New Category\n\n✅ Successfully added category \"" ++ n ++ "\"",
         { st.omo with
            categories := some (alistSet (st.omo.categories.getD []) n (mkAddedCategory opts.categoryData)) },
         st.oc,
         (backupConfigsInternal env.omoPath env.ocPath env.now st.archive).archive,
         [.backupBoth, .writeOmoConfig]⟩ := by
      simp [executeAction, execAddCategory, hp, hs, hm, ht]
    rw [hmain]
    exact ⟨rfl, by simp [alistGet_alistSet_self]⟩

/-- Witness for C10: re-adding the existing agent "debugger" (whose old
entry carries tools and a description) with only a model yields an
entry built solely from the new data — old fields are dropped. -/
theorem add_replaces_existing_wholesale_witness :
    alistGet
      ((executeAction sampleEnv .addAgent
          { agentName := some "debugger", agentData := { model := some "opencode/gpt-5.2" } }
          ⟨{ agents := some
              [("debugger",
                { model := some "old-model", description := some "old",
                  tools := some [("grep", "true")] })] }, {}, []⟩).omo.agents.getD [])
      "debugger" =
      some (mkAddedAgent { model := some "opencode/gpt-5.2" }) :=
  ((add_replaces_existing_wholesale.1 sampleEnv
    ⟨{ agents := some
        [("debugger",
          { model := some "old-model", description := some "old",
            tools := some [("grep", "true")] })] }, {}, []⟩
    { agentName := some "debugger", agentData := { model := some "opencode/gpt-5.2" } }
    "debugger"
    { model := some "old-model", description := some "old", tools := some [("grep", "true")] }
    (by decide) (by decide) (by decide) (by decide) (by decide)).2).1

end OmoConfigManager
